import Mathlib

/-!
# Verification of the baseline subsystem of basedpyright

Shallow embedding of `packages/pyright-internal/src/baseline.ts`.

External collaborators that the source imports from elsewhere in the
repository (URIs, the file system, `JSON.parse`/`JSON.stringify`,
`compareDiagnostics`, `extraOptionDiagnosticRules`) are modelled either as
abstract function parameters or as definitions marked `Modelled from the
spec`.  Machine integers do not occur: all numbers in play are line/column
indices (JS doubles used as small naturals), embedded as `Nat`.
-/

set_option maxRecDepth 10000

/-- Diagnostic categories, from `common/diagnostic.ts` (`DiagnosticCategory`):
error / warning / information plus the tagged hint tiers used for
interactive display. -/
inductive DiagnosticCategory where
  | error
  | warning
  | information
  | unusedCode
  | unreachableCode
  | deprecated
  | taskItem
deriving DecidableEq

/-- The `baselineStatus` field a `Diagnostic` may carry
(`'baselined' | 'baselined with hint'` in the source). -/
inductive BaselineStatus where
  | baselined
  | baselinedWithHint
deriving DecidableEq

/-- A position in a document: `{ line, character }` from `common/textRange.ts`. -/
structure TextPosition where
  line : Nat
  character : Nat
deriving DecidableEq

/-- A text range `{ start, end }`.  The `end` field is named `stop` here
because `end` is a keyword in Lean. -/
structure TextRange where
  start : TextPosition
  stop : TextPosition
deriving DecidableEq

/-- A diagnostic as consumed by `baseline.ts`: category, span, message, the
optional rule identifier returned by `getRule()` (a `DiagnosticRule` string,
or absent e.g. for syntax errors), and the optional baseline status.
`copy` with field overrides is embedded as Lean record update. -/
structure Diagnostic where
  category : DiagnosticCategory
  range : TextRange
  message : String
  rule : Option String
  baselineStatus : Option BaselineStatus
deriving DecidableEq

/-- The `range` stored in a baseline entry (`BaselinedDiagnostic.range` in
the source): columns only, plus an optional line count (absent in baseline
files generated before version 1.18.1). -/
structure BaselinedRange where
  startColumn : Nat
  endColumn : Nat
  lineCount : Option Nat
deriving DecidableEq

/-- `BaselinedDiagnostic` from `baseline.ts` (lines 13-25). -/
structure BaselinedDiagnostic where
  code : Option String
  range : BaselinedRange
deriving DecidableEq

/-- `BaselineFile` from `baseline.ts` (lines 27-31).  The JS object
`files` is insertion-ordered with unique string keys; it is embedded as an
association list. -/
structure BaselineFile where
  files : List (String × List BaselinedDiagnostic)
deriving DecidableEq

/-- `FileDiagnostics` from `common/diagnosticSink.ts`: a file URI together
with the diagnostics reported for it.  URIs are embedded as strings. -/
structure FileDiagnostics where
  fileUri : String
  diagnostics : List Diagnostic
deriving DecidableEq

/-- The error `JSON.parse` throws on unparsable input (a JS `SyntaxError`).
`getBaselinedErrors` calls `JSON.parse` outside of its `try` block, so this
error can escape to the caller; results are therefore embedded in `Except`. -/
inductive BaselineJsonError where
  | parseError
deriving DecidableEq

/-- `lineCount` from `baseline.ts` line 33:
`range.end.line - range.start.line + 1` (Nat subtraction; ranges produced
by the checker always satisfy `start.line ≤ end.line`). -/
def lineCount (range : TextRange) : Nat :=
  range.stop.line - range.start.line + 1

/-- `baselineFilePath` from `baseline.ts` line 35:
`rootDir.combinePaths('.basedpyright/baseline.json')`. -/
def baselineFilePath (rootDir : String) : String :=
  rootDir ++ "/.basedpyright/baseline.json"

/-- Modelled from the spec: names of the non-suppressing tagged hint tiers
("unused"/"deprecated"/"unreachable"), the `name` field of the entries of
`extraOptionDiagnosticRules` in `common/configOptions.ts` (not under the
sources provided). -/
inductive TaggedHintName where
  | unreachable
  | deprecated
  | unused
deriving DecidableEq

/-- Modelled from the spec: `convertLevelToCategory` from
`common/diagnostic.ts` (not under the sources provided) maps a tagged hint
tier name to its display category. -/
def convertLevelToCategory : TaggedHintName → DiagnosticCategory
  | .unreachable => .unreachableCode
  | .deprecated => .deprecated
  | .unused => .unusedCode

/-- One entry of `extraOptionDiagnosticRules`: a tier name together with
the list of diagnostic rules currently configured into that tier (the
source's `get()` thunk, evaluated). -/
structure ExtraOptionDiagnosticRule where
  name : TaggedHintName
  rules : List String
deriving DecidableEq

/-- Modelled from the spec: the fixed-priority list
`extraOptionDiagnosticRules` from `common/configOptions.ts` (not under the
sources provided); the spec lists the tiers "currently: unreachable-code,
deprecated-usage". -/
def extraOptionDiagnosticRules : List ExtraOptionDiagnosticRule :=
  [⟨.unreachable, ["reportUnreachable"]⟩, ⟨.deprecated, ["reportDeprecated"]⟩]

/-- The three hint categories listed in `diagnosticsToBaseline`
(`baseline.ts` lines 45-49), in source order. -/
def hintDiagnosticCategories : List DiagnosticCategory :=
  [.deprecated, .unreachableCode, .unusedCode]

/-- The filter predicate of `diagnosticsToBaseline` (`baseline.ts` lines
43-50): keep a diagnostic unless its category is a hint category, except
when it is explicitly marked `'baselined with hint'`. -/
def baselineFilter (diagnostic : Diagnostic) : Bool :=
  !(hintDiagnosticCategories.contains diagnostic.category) ||
    diagnostic.baselineStatus == some .baselinedWithHint

/-- The entry built for one diagnostic by `diagnosticsToBaseline`
(`baseline.ts` lines 58-64). -/
def toBaselined (diagnostic : Diagnostic) : BaselinedDiagnostic :=
  { code := diagnostic.rule
    range :=
      { startColumn := diagnostic.range.start.character
        endColumn := diagnostic.range.stop.character
        lineCount := some (lineCount diagnostic.range) } }

/-- JS object key-membership test (`filePath in baselineData.files`). -/
def hasKey (m : List (String × α)) (k : String) : Bool :=
  m.any (fun p => p.1 == k)

/-- JS object indexing (`files[filePath]`), `none` for a missing key. -/
def lookupVal (m : List (String × α)) (k : String) : Option α :=
  (m.find? (fun p => p.1 == k)).map (·.2)

/-- JS array push through an object key
(`baselineData.files[filePath].push(...)`): appends to the value at `k`. -/
def pushAt (m : List (String × List α)) (k : String) (vs : List α) :
    List (String × List α) :=
  m.map (fun p => if p.1 = k then (p.1, p.2 ++ vs) else p)

/-- The loop body of `diagnosticsToBaseline` (`baseline.ts` lines 41-67).
`rel` embeds `rootDir.getRelativePath` (the source asserts with `!` that
every analyzed file is inside the workspace; `getD ""` stands for that
assertion). -/
def diagnosticsToBaselineStep (rel : String → Option String)
    (acc : List (String × List BaselinedDiagnostic)) (f : FileDiagnostics) :
    List (String × List BaselinedDiagnostic) :=
  let filePath := (rel f.fileUri).getD ""
  let errorDiagnostics := f.diagnostics.filter baselineFilter
  let acc1 := if hasKey acc filePath then acc else acc ++ [(filePath, [])]
  if errorDiagnostics.isEmpty then acc1
  else pushAt acc1 filePath (errorDiagnostics.map toBaselined)

/-- `diagnosticsToBaseline` from `baseline.ts` lines 37-69. -/
def diagnosticsToBaseline (rel : String → Option String)
    (filesWithDiagnostics : List FileDiagnostics) : BaselineFile :=
  ⟨filesWithDiagnostics.foldl (diagnosticsToBaselineStep rel) []⟩

/-- `getBaselinedErrors` from `baseline.ts` lines 130-139.
`readFile` embeds `fs.readFileSync` (`none` = the call threw, e.g. the file
is missing); `parse` embeds `JSON.parse` (`none` = `SyntaxError`).  Only
the read is inside the source's `try`; a parse failure escapes, hence the
`Except` result. -/
def getBaselinedErrors (readFile : String → Option String)
    (parse : String → Option BaselineFile) (rootDir : String) :
    Except BaselineJsonError BaselineFile :=
  match readFile (baselineFilePath rootDir) with
  | none => .ok ⟨[]⟩
  | some baselineFileContents =>
    match parse baselineFileContents with
    | some b => .ok b
    | none => .error .parseError

/-- `getBaselinedErrorsForFile` from `baseline.ts` lines 141-149.
`rel` embeds `rootDir.getRelativePath`; the source's `if (relativePath)`
is a JS truthiness test, so the empty relative path also skips the lookup. -/
def getBaselinedErrorsForFile (readFile : String → Option String)
    (parse : String → Option BaselineFile) (rel : String → Option String)
    (rootDir file : String) :
    Except BaselineJsonError (List BaselinedDiagnostic) :=
  match rel file with
  | none => .ok []
  | some relativePath =>
    if relativePath = "" then .ok []
    else
      (getBaselinedErrors readFile parse rootDir).map
        (fun b => (lookupVal b.files relativePath).getD [])

/-- Modelled from the spec: minimal JSON string escaping used by
`JSON.stringify` for the path/rule strings that occur in baseline files. -/
def escapeJsonChar (c : Char) : String :=
  if c = '"' then "\\\"" else if c = '\\' then "\\\\" else String.singleton c

/-- Escape a whole string for JSON output. -/
def escapeJson (s : String) : String :=
  String.join (s.toList.map escapeJsonChar)

/-- A JSON string literal. -/
def jsonStr (s : String) : String :=
  "\"" ++ escapeJson s ++ "\""

/-- Modelled from the spec: `JSON.stringify` (4-space indent) of one
baseline entry, with `undefined` fields (`code`, `lineCount`) omitted as
`JSON.stringify` omits them.  `ind` is the indentation of the entry. -/
def serializeBaselinedDiagnostic (ind : String) (b : BaselinedDiagnostic) :
    String :=
  ind ++ "\x7b\n" ++
    (match b.code with
      | some c => ind ++ "    " ++ jsonStr "code" ++ ": " ++ jsonStr c ++ ",\n"
      | none => "") ++
    ind ++ "    " ++ jsonStr "range" ++ ": \x7b\n" ++
    ind ++ "        " ++ jsonStr "startColumn" ++ ": " ++
      toString b.range.startColumn ++ ",\n" ++
    ind ++ "        " ++ jsonStr "endColumn" ++ ": " ++
      toString b.range.endColumn ++
    (match b.range.lineCount with
      | some n => ",\n" ++ ind ++ "        " ++ jsonStr "lineCount" ++ ": " ++
          toString n ++ "\n"
      | none => "\n") ++
    ind ++ "    \x7d\n" ++
    ind ++ "\x7d"

/-- One `"<path>": [ ... ]` line group of the serialized baseline. -/
def serializeFileEntry (p : String × List BaselinedDiagnostic) : String :=
  "        " ++ jsonStr p.1 ++ ": " ++
    (if p.2.isEmpty then "[]"
     else "[\n" ++
       String.intercalate ",\n" (p.2.map (serializeBaselinedDiagnostic "            ")) ++
       "\n        ]")

/-- Modelled from the spec: `JSON.stringify(result, undefined, 4)` as called
by `writeDiagnosticsToBaselineFile` (`baseline.ts` line 106) on the
`BaselineFile` shape. -/
def serializeBaseline (b : BaselineFile) : String :=
  "\x7b\n    " ++ jsonStr "files" ++ ": " ++
    (if b.files.isEmpty then "\x7b\x7d"
     else "\x7b\n" ++ String.intercalate ",\n" (b.files.map serializeFileEntry) ++
       "\n    \x7d") ++
  "\n\x7d"

/-- Lexicographic comparison of character lists, the order JS string
comparison (`<`, and the default `Array.prototype.sort`) uses. -/
def charListLe : List Char → List Char → Bool
  | [], _ => true
  | _ :: _, [] => false
  | a :: as, b :: bs => if a < b then true else if b < a then false else charListLe as bs

/-- Lexicographic string comparison (JS `a <= b` on strings). -/
def strLe (a b : String) : Bool :=
  charListLe a.data b.data

theorem charListLe_total : ∀ as bs, charListLe as bs = true ∨ charListLe bs as = true
  | [], _ => Or.inl rfl
  | _ :: _, [] => Or.inr rfl
  | a :: as, b :: bs => by
    by_cases hab : a < b
    · exact Or.inl (by simp [charListLe, hab])
    · by_cases hba : b < a
      · exact Or.inr (by simp [charListLe, hba])
      · rcases charListLe_total as bs with h | h
        · exact Or.inl (by simp [charListLe, hab, hba, h])
        · exact Or.inr (by simp [charListLe, hab, hba, h])

theorem charListLe_trans : ∀ as bs cs, charListLe as bs = true →
    charListLe bs cs = true → charListLe as cs = true
  | [], _, _, _, _ => rfl
  | a :: as, [], _, h, _ => by simp [charListLe] at h
  | _ :: _, _ :: _, [], _, h => by simp [charListLe] at h
  | a :: as, b :: bs, c :: cs, h₁, h₂ => by
    simp only [charListLe] at h₁ h₂ ⊢
    by_cases hab : a < b
    · by_cases hbc : b < c
      · simp [lt_trans hab hbc]
      · by_cases hcb : c < b
        · rw [if_neg hbc, if_pos hcb] at h₂; exact absurd h₂ (by simp)
        · have : b = c := le_antisymm (not_lt.mp hcb) (not_lt.mp hbc)
          subst this; simp [hab]
    · by_cases hba : b < a
      · rw [if_neg hab, if_pos hba] at h₁; exact absurd h₁ (by simp)
      · have hab' : a = b := le_antisymm (not_lt.mp hba) (not_lt.mp hab)
        subst hab'
        rw [if_neg hab, if_neg hba] at h₁
        by_cases hac : a < c
        · simp [hac]
        · by_cases hca : c < a
          · rw [if_neg hac, if_pos hca] at h₂; exact absurd h₂ (by simp)
          · rw [if_neg hac, if_neg hca] at h₂ ⊢
            exact charListLe_trans as bs cs h₁ h₂

theorem charListLe_antisymm : ∀ as bs, charListLe as bs = true →
    charListLe bs as = true → as = bs
  | [], [], _, _ => rfl
  | [], _ :: _, _, h => by simp [charListLe] at h
  | _ :: _, [], h, _ => by simp [charListLe] at h
  | a :: as, b :: bs, h₁, h₂ => by
    simp only [charListLe] at h₁ h₂
    by_cases hab : a < b
    · rw [if_neg (lt_asymm hab), if_pos hab] at h₂; exact absurd h₂ (by simp)
    · by_cases hba : b < a
      · rw [if_neg hab, if_pos hba] at h₁; exact absurd h₁ (by simp)
      · have : a = b := le_antisymm (not_lt.mp hba) (not_lt.mp hab)
        subst this
        rw [if_neg hab, if_neg hab] at h₁ h₂
        rw [charListLe_antisymm as bs h₁ h₂]

theorem strLe_total (a b : String) : strLe a b = true ∨ strLe b a = true :=
  charListLe_total a.data b.data

theorem strLe_trans {a b c : String} (h₁ : strLe a b = true)
    (h₂ : strLe b c = true) : strLe a c = true :=
  charListLe_trans a.data b.data c.data h₁ h₂

theorem strLe_antisymm {a b : String} (h₁ : strLe a b = true)
    (h₂ : strLe b a = true) : a = b := by
  have h := charListLe_antisymm a.data b.data h₁ h₂
  cases a; cases b; cases h; rfl

/-- Ordering of baseline-file entries by their path key
(`Object.keys(newBaseline).sort()`, JS default lexicographic string sort). -/
def entryLe (a b : String × List BaselinedDiagnostic) : Prop :=
  strLe a.1 b.1 = true

instance : DecidableRel entryLe :=
  fun a b => inferInstanceAs (Decidable (strLe a.1 b.1 = true))

instance : IsTotal (String × List BaselinedDiagnostic) entryLe :=
  ⟨fun a b => strLe_total a.1 b.1⟩

instance : IsTrans (String × List BaselinedDiagnostic) entryLe :=
  ⟨fun _ _ _ h h' => strLe_trans h h'⟩

/-- The body of the merge loop of `writeDiagnosticsToBaselineFile`
(`baseline.ts` lines 90-94): a previously baselined file missing from the
new baseline keeps its entries when `openFilesOnly` is set or the file
still exists on disk.  `fexists` embeds
`fileExists(fs, rootDir.combinePaths(filePath))`. -/
def mergePreviousStep (fexists : String → Bool) (openFilesOnly : Bool)
    (acc : List (String × List BaselinedDiagnostic))
    (q : String × List BaselinedDiagnostic) :
    List (String × List BaselinedDiagnostic) :=
  if !hasKey acc q.1 && (openFilesOnly || fexists q.1) then acc ++ [q] else acc

/-- `writeDiagnosticsToBaselineFile` from `baseline.ts` lines 77-108.
Returns the serialized bytes written to disk together with the returned
`BaselineFile`; a parse error from `getBaselinedErrors` escapes. -/
def writeDiagnosticsToBaselineFile (readFile : String → Option String)
    (parse : String → Option BaselineFile) (rel : String → Option String)
    (fexists : String → Bool) (rootDir : String)
    (filesWithDiagnostics : List FileDiagnostics) (openFilesOnly : Bool) :
    Except BaselineJsonError (String × BaselineFile) :=
  match getBaselinedErrors readFile parse rootDir with
  | .error e => .error e
  | .ok previousBaseline =>
    let newBaseline := (diagnosticsToBaseline rel filesWithDiagnostics).files
    let merged :=
      previousBaseline.files.foldl (mergePreviousStep fexists openFilesOnly) newBaseline
    let sortedEntries := List.insertionSort entryLe merged
    let result : BaselineFile := ⟨sortedEntries.filter (fun q => !q.2.isEmpty)⟩
    .ok (serializeBaseline result, result)

/-- Modelled from the spec: `compareDiagnostics` from `common/diagnostic.ts`
(not under the sources provided); the spec's sort key is "(start line,
start column, rule identifier)", lexicographically. -/
def diagLe (a b : Diagnostic) : Prop :=
  a.range.start.line < b.range.start.line ∨
    (a.range.start.line = b.range.start.line ∧
      (a.range.start.character < b.range.start.character ∨
        (a.range.start.character = b.range.start.character ∧
          strLe (a.rule.getD "") (b.rule.getD "") = true)))

instance : DecidableRel diagLe := fun a b => by
  unfold diagLe; infer_instance

instance : IsTotal Diagnostic diagLe := by
  constructor
  intro a b
  unfold diagLe
  rcases Nat.lt_trichotomy a.range.start.line b.range.start.line with h | h | h
  · exact Or.inl (Or.inl h)
  · rcases Nat.lt_trichotomy a.range.start.character b.range.start.character with h' | h' | h'
    · exact Or.inl (Or.inr ⟨h, Or.inl h'⟩)
    · rcases strLe_total (a.rule.getD "") (b.rule.getD "") with h'' | h''
      · exact Or.inl (Or.inr ⟨h, Or.inr ⟨h', h''⟩⟩)
      · exact Or.inr (Or.inr ⟨h.symm, Or.inr ⟨h'.symm, h''⟩⟩)
    · exact Or.inr (Or.inr ⟨h.symm, Or.inl h'⟩)
  · exact Or.inr (Or.inl h)

instance : IsTrans Diagnostic diagLe := by
  constructor
  intro a b c hab hbc
  unfold diagLe at *
  rcases hab with h₁ | ⟨e₁, h₁⟩
  · rcases hbc with h₂ | ⟨e₂, _⟩
    · exact Or.inl (h₁.trans h₂)
    · exact Or.inl (e₂ ▸ h₁)
  · rcases hbc with h₂ | ⟨e₂, h₂⟩
    · exact Or.inl (e₁ ▸ h₂)
    · refine Or.inr ⟨e₁.trans e₂, ?_⟩
      rcases h₁ with h₁ | ⟨f₁, h₁⟩
      · rcases h₂ with h₂ | ⟨f₂, _⟩
        · exact Or.inl (h₁.trans h₂)
        · exact Or.inl (f₂ ▸ h₁)
      · rcases h₂ with h₂ | ⟨f₂, h₂⟩
        · exact Or.inl (f₁ ▸ h₂)
        · exact Or.inr ⟨f₁.trans f₂, strLe_trans h₁ h₂⟩

/-- The in-place `diagnostics.sort(compareDiagnostics)` of
`sortDiagnosticsAndMatchBaseline` (`baseline.ts` line 157): a stable sort
(JS `Array.prototype.sort` is stable) by the modelled comparator. -/
def sortDiags (diagnostics : List Diagnostic) : List Diagnostic :=
  List.insertionSort diagLe diagnostics

/-- The `comparator` passed to `diffArrays`
(`baseline.ts` lines 159-165): rule identifiers, start columns and end
columns must agree; a missing `lineCount` on the baseline entry (old-format
file) is a wildcard, otherwise the line counts must agree. -/
def baselineDiagnosticMatches (baselinedDiagnostic : BaselinedDiagnostic)
    (diagnostic : Diagnostic) : Bool :=
  baselinedDiagnostic.code == diagnostic.rule &&
    baselinedDiagnostic.range.startColumn == diagnostic.range.start.character &&
    baselinedDiagnostic.range.endColumn == diagnostic.range.stop.character &&
    (baselinedDiagnostic.range.lineCount == none ||
      baselinedDiagnostic.range.lineCount == some (lineCount diagnostic.range))

/-- Length of a longest common subsequence under the comparator, with
explicit fuel (`n` at least `old.length + new.length` suffices). -/
def lcsLenF (cmp : α → β → Bool) : Nat → List α → List β → Nat
  | 0, _, _ => 0
  | _ + 1, [], _ => 0
  | _ + 1, _ :: _, [] => 0
  | n + 1, a :: as, b :: bs =>
    if cmp a b then lcsLenF cmp n as bs + 1
    else max (lcsLenF cmp n as (b :: bs)) (lcsLenF cmp n (a :: as) bs)

/-- LCS length under the comparator. -/
def lcsLen (cmp : α → β → Bool) (old : List α) (new : List β) : Nat :=
  lcsLenF cmp (old.length + new.length) old new

/-- One chunk of a list diff: an element removed from the old list, added
from the new list, or common to both (carrying the new-side value, as the
`diff` package does for `diffArrays`). -/
inductive DiffItem (α β : Type) where
  | removed (a : α)
  | added (b : β)
  | common (a : α) (b : β)
deriving DecidableEq

/-- The diff recursion, with explicit fuel (`n` at least
`old.length + new.length` suffices): match comparator-equal heads,
otherwise favor the side that leaves the longer common subsequence. -/
def diffF (cmp : α → β → Bool) : Nat → List α → List β → List (DiffItem α β)
  | 0, _, _ => []
  | _ + 1, [], bs => bs.map .added
  | n + 1, a :: as, [] => .removed a :: diffF cmp n as []
  | n + 1, a :: as, b :: bs =>
    if cmp a b then .common a b :: diffF cmp n as bs
    else if lcsLen cmp as (b :: bs) ≥ lcsLen cmp (a :: as) bs then
      .removed a :: diffF cmp n as (b :: bs)
    else
      .added b :: diffF cmp n (a :: as) bs

/-- Modelled from the spec: `diffArrays` of the third-party `diff` package,
a "classic list-diff (longest-common-subsequence-style alignment) ... with
an injectable equality predicate"; common chunks carry the new-side values. -/
def diffArrays (cmp : α → β → Bool) (old : List α) (new : List β) :
    List (DiffItem α β) :=
  diffF cmp (old.length + new.length) old new

/-- The per-diagnostic body of the matched branch of
`sortDiagnosticsAndMatchBaseline` (`baseline.ts` lines 180-204): if the
diagnostic's rule (a truthy string) belongs to an extra hint tier, demote
to the first such tier and mark `'baselined with hint'`; otherwise mark
`'baselined'`.  `tiers` embeds `extraOptionDiagnosticRules` with each
`get()` evaluated. -/
def applyBaseline (tiers : List ExtraOptionDiagnosticRule)
    (diagnostic : Diagnostic) : Diagnostic :=
  match diagnostic.rule with
  | some diagnosticRule =>
    if diagnosticRule = "" then
      { diagnostic with baselineStatus := some .baselined }
    else
      match tiers.find? (fun t => t.rules.contains diagnosticRule) with
      | some t =>
        { diagnostic with
            category := convertLevelToCategory t.name
            baselineStatus := some .baselinedWithHint }
      | none => { diagnostic with baselineStatus := some .baselined }
  | none => { diagnostic with baselineStatus := some .baselined }

/-- The chunk loop of `sortDiagnosticsAndMatchBaseline` (`baseline.ts`
lines 167-206): removed chunks are skipped, added chunks pass through,
common chunks are rewritten by `applyBaseline`. -/
def processDiff (tiers : List ExtraOptionDiagnosticRule) :
    List (DiffItem BaselinedDiagnostic Diagnostic) → List Diagnostic
  | [] => []
  | .removed _ :: rest => processDiff tiers rest
  | .added b :: rest => b :: processDiff tiers rest
  | .common _ b :: rest => applyBaseline tiers b :: processDiff tiers rest

/-- The pure core of `sortDiagnosticsAndMatchBaseline` (`baseline.ts`
lines 151-207), with the previously baselined entries passed explicitly. -/
def sortDiagnosticsAndMatchBaselineCore (tiers : List ExtraOptionDiagnosticRule)
    (previousEntries : List BaselinedDiagnostic)
    (diagnostics : List Diagnostic) : List Diagnostic :=
  processDiff tiers
    (diffArrays baselineDiagnosticMatches previousEntries (sortDiags diagnostics))

/-- `sortDiagnosticsAndMatchBaseline` from `baseline.ts` lines 151-207,
fetching the previous entries through `getBaselinedErrorsForFile`. -/
def sortDiagnosticsAndMatchBaseline (tiers : List ExtraOptionDiagnosticRule)
    (readFile : String → Option String) (parse : String → Option BaselineFile)
    (rel : String → Option String) (rootDir file : String)
    (diagnostics : List Diagnostic) :
    Except BaselineJsonError (List Diagnostic) :=
  (getBaselinedErrorsForFile readFile parse rel rootDir file).map
    (fun previousEntries =>
      sortDiagnosticsAndMatchBaselineCore tiers previousEntries diagnostics)

/-- Modelled from the spec: the downstream consumer filter (not under the
sources provided) that makes matched diagnostics marked `'baselined'`
"fully suppressed from `visible`", while added diagnostics and
`'baselined with hint'` demotions remain visible. -/
def visibleDiagnostics (diagnostics : List Diagnostic) : List Diagnostic :=
  diagnostics.filter (fun d => d.baselineStatus != some .baselined)

/-- The trace of a diff: per new-side element, the old-side element it was
matched with, if any.  Removed old-side elements leave no trace. -/
def itemsTrace : List (DiffItem α β) → List (β × Option α)
  | [] => []
  | .removed _ :: rest => itemsTrace rest
  | .added b :: rest => (b, none) :: itemsTrace rest
  | .common a b :: rest => (b, some a) :: itemsTrace rest

/-- What the chunk loop does to one traced element: matched elements are
rewritten by `applyBaseline`, unmatched ones pass through. -/
def stepFn (tiers : List ExtraOptionDiagnosticRule)
    (p : Diagnostic × Option BaselinedDiagnostic) : Diagnostic :=
  match p.2 with
  | some _ => applyBaseline tiers p.1
  | none => p.1

/-! ## Generic list lemmas -/

/-- Two pairwise-ordered lists that are permutations of each other and whose
order is antisymmetric on their elements are equal. -/
theorem pairwise_perm_eq {α : Type} {R : α → α → Prop} :
    ∀ {l₁ l₂ : List α}, l₁.Perm l₂ → l₁.Pairwise R → l₂.Pairwise R →
      (∀ a ∈ l₁, ∀ b ∈ l₁, R a b → R b a → a = b) → l₁ = l₂ := by
  intro l₁
  induction l₁ with
  | nil =>
    intro l₂ hp _ _ _
    exact hp.nil_eq
  | cons a t₁ ih =>
    intro l₂ hp hs₁ hs₂ anti
    cases l₂ with
    | nil => simpa using hp.eq_nil
    | cons c t₂ =>
      have hac : a = c := by
        have ha₂ : a ∈ c :: t₂ := hp.mem_iff.mp (List.mem_cons_self a t₁)
        have hc₁ : c ∈ a :: t₁ := hp.symm.mem_iff.mp (List.mem_cons_self c t₂)
        rcases List.mem_cons.mp ha₂ with h | ha₂'
        · exact h
        rcases List.mem_cons.mp hc₁ with h | hc₁'
        · exact h.symm
        have hRac : R a c := (List.pairwise_cons.mp hs₁).1 c hc₁'
        have hRca : R c a := (List.pairwise_cons.mp hs₂).1 a ha₂'
        exact anti a (List.mem_cons_self a t₁) c hc₁ hRac hRca
      subst hac
      have hp' : t₁.Perm t₂ := hp.cons_inv
      have ht := ih hp' (List.pairwise_cons.mp hs₁).2 (List.pairwise_cons.mp hs₂).2
        (fun x hx y hy => anti x (List.mem_cons_of_mem _ hx) y (List.mem_cons_of_mem _ hy))
      rw [ht]

/-- The keys of an association list (`Object.keys`, in insertion order). -/
def keysOf (m : List (String × α)) : List String :=
  m.map (·.1)

theorem hasKey_iff {m : List (String × α)} {k : String} :
    hasKey m k = true ↔ k ∈ keysOf m := by
  simp [hasKey, keysOf, List.any_eq_true, List.mem_map, beq_iff_eq]

theorem hasKey_eq_false_iff {m : List (String × α)} {k : String} :
    hasKey m k = false ↔ k ∉ keysOf m := by
  rw [← hasKey_iff]
  cases h : hasKey m k <;> simp

/-- With unique keys, two entries with the same key are the same entry. -/
theorem eq_of_mem_of_keys_nodup {m : List (String × α)} {p q : String × α}
    (hnd : (keysOf m).Nodup) (hp : p ∈ m) (hq : q ∈ m) (hk : p.1 = q.1) :
    p = q := by
  induction m with
  | nil => cases hp
  | cons x rest ih =>
    have hnd' : (keysOf rest).Nodup := (List.nodup_cons.mp hnd).2
    have hx : x.1 ∉ keysOf rest := (List.nodup_cons.mp hnd).1
    rcases List.mem_cons.mp hp with rfl | hp'
    · rcases List.mem_cons.mp hq with rfl | hq'
      · rfl
      · exact absurd (hk ▸ List.mem_map_of_mem (·.1) hq') hx
    · rcases List.mem_cons.mp hq with rfl | hq'
      · exact absurd (hk ▸ List.mem_map_of_mem (·.1) hp') hx
      · exact ih hnd' hp' hq'

theorem lookupVal_eq_none_iff {m : List (String × α)} {k : String} :
    lookupVal m k = none ↔ k ∉ keysOf m := by
  simp only [lookupVal, Option.map_eq_none', List.find?_eq_none, keysOf,
    List.mem_map, beq_iff_eq, not_exists, not_and]

theorem lookupVal_eq_some_of_mem {m : List (String × α)} {k : String} {v : α}
    (hnd : (keysOf m).Nodup) (hm : (k, v) ∈ m) :
    lookupVal m k = some v := by
  cases h : m.find? (fun p => p.1 == k) with
  | none =>
    rw [List.find?_eq_none] at h
    exact absurd (by simp : ((k, v).1 == k) = true) (h _ hm)
  | some p =>
    have hp : p ∈ m := List.mem_of_find?_eq_some h
    have hpk : p.1 = k := by simpa using List.find?_some h
    have hpv : p = (k, v) := eq_of_mem_of_keys_nodup hnd hp hm (by simpa using hpk)
    subst hpv
    simp [lookupVal, h]

theorem mem_of_lookupVal_eq_some {m : List (String × α)} {k : String} {v : α}
    (h : lookupVal m k = some v) : (k, v) ∈ m := by
  cases hf : m.find? (fun p => p.1 == k) with
  | none => simp [lookupVal, hf] at h
  | some p =>
    have hp : p ∈ m := List.mem_of_find?_eq_some hf
    have hpk : p.1 = k := by simpa using List.find?_some hf
    have hv : p.2 = v := by simpa [lookupVal, hf] using h
    have hpv : p = (k, v) := by
      cases p
      simp_all
    exact hpv ▸ hp

theorem lookupVal_eq_some_iff {m : List (String × α)} {k : String} {v : α}
    (hnd : (keysOf m).Nodup) :
    lookupVal m k = some v ↔ (k, v) ∈ m :=
  ⟨mem_of_lookupVal_eq_some, lookupVal_eq_some_of_mem hnd⟩

/-- A `find?` hit splits the list at the first element satisfying the
predicate. -/
theorem find?_eq_some_split {α : Type} {p : α → Bool} :
    ∀ {l : List α} {x : α}, l.find? p = some x →
      ∃ pre post, l = pre ++ x :: post ∧ ∀ y ∈ pre, p y = false := by
  intro l
  induction l with
  | nil => intro x h; cases h
  | cons a rest ih =>
    intro x h
    by_cases ha : p a
    · rw [List.find?_cons_of_pos _ ha] at h
      cases h
      exact ⟨[], rest, rfl, by simp⟩
    · rw [List.find?_cons_of_neg _ (by simpa using ha)] at h
      obtain ⟨pre, post, heq, hpre⟩ := ih h
      refine ⟨a :: pre, post, by rw [heq]; rfl, ?_⟩
      intro y hy
      rcases List.mem_cons.mp hy with rfl | hy'
      · simpa using ha
      · exact hpre y hy'

/-! ## Diff lemmas -/

theorem itemsTrace_map_added {α β : Type} (bs : List β) :
    itemsTrace (bs.map (.added : β → DiffItem α β)) = bs.map (fun b => (b, none)) := by
  induction bs with
  | nil => rfl
  | cons b rest ih => simp [itemsTrace, ih]

/-- With sufficient fuel, every new-side element appears exactly once, in
order, in the trace of the diff. -/
theorem itemsTrace_diffF_map_fst {α β : Type} (cmp : α → β → Bool) :
    ∀ (n : Nat) (old : List α) (new : List β), old.length + new.length ≤ n →
      (itemsTrace (diffF cmp n old new)).map Prod.fst = new := by
  intro n
  induction n with
  | zero =>
    intro old new h
    have ho : old = [] := by cases old <;> simp_all
    have hn : new = [] := by cases new <;> simp_all
    subst ho; subst hn
    rfl
  | succ n ih =>
    intro old new h
    cases old with
    | nil =>
      simp [diffF, itemsTrace_map_added, List.map_map]
      exact List.map_id new
    | cons a as =>
      cases new with
      | nil =>
        simp only [diffF, itemsTrace]
        exact ih as [] (by simp at h ⊢; omega)
      | cons b bs =>
        simp only [diffF]
        by_cases hc : cmp a b
        · simp only [if_pos hc, itemsTrace, List.map_cons]
          rw [ih as bs (by simp at h ⊢; omega)]
        · simp only [if_neg hc]
          by_cases hl : lcsLen cmp as (b :: bs) ≥ lcsLen cmp (a :: as) bs
          · simp only [if_pos hl, itemsTrace]
            exact ih as (b :: bs) (by simp at h ⊢; omega)
          · simp only [if_neg hl, itemsTrace, List.map_cons]
            rw [ih (a :: as) bs (by simp at h ⊢; omega)]

/-- The chunk loop is exactly `stepFn` mapped over the trace. -/
theorem processDiff_eq_map_stepFn (tiers : List ExtraOptionDiagnosticRule) :
    ∀ items, processDiff tiers items = (itemsTrace items).map (stepFn tiers) := by
  intro items
  induction items with
  | nil => rfl
  | cons i rest ih =>
    cases i <;> simp [processDiff, itemsTrace, stepFn, ih]

/-- Every matched pair recorded in the trace satisfies the comparator, and
its old-side element comes from the old list. -/
theorem itemsTrace_diffF_matched {α β : Type} (cmp : α → β → Bool) :
    ∀ (n : Nat) (old : List α) (new : List β) (p : β × Option α),
      p ∈ itemsTrace (diffF cmp n old new) → ∀ a, p.2 = some a →
        a ∈ old ∧ cmp a p.1 = true := by
  intro n
  induction n with
  | zero =>
    intro old new p hp
    simp [diffF, itemsTrace] at hp
  | succ n ih =>
    intro old new p hp a ha
    cases old with
    | nil =>
      rw [diffF, itemsTrace_map_added] at hp
      obtain ⟨b, _, rfl⟩ := List.mem_map.mp hp
      simp at ha
    | cons x as =>
      cases new with
      | nil =>
        rw [diffF] at hp
        simp only [itemsTrace] at hp
        obtain ⟨hm, hc⟩ := ih as [] p hp a ha
        exact ⟨List.mem_cons_of_mem _ hm, hc⟩
      | cons b bs =>
        rw [diffF] at hp
        by_cases hc : cmp x b
        · rw [if_pos hc] at hp
          simp only [itemsTrace] at hp
          rcases List.mem_cons.mp hp with rfl | hp'
          · simp only at ha
            cases ha
            exact ⟨List.mem_cons_self _ _, hc⟩
          · obtain ⟨hm, hcc⟩ := ih as bs p hp' a ha
            exact ⟨List.mem_cons_of_mem _ hm, hcc⟩
        · rw [if_neg hc] at hp
          by_cases hl : lcsLen cmp as (b :: bs) ≥ lcsLen cmp (x :: as) bs
          · rw [if_pos hl] at hp
            simp only [itemsTrace] at hp
            obtain ⟨hm, hcc⟩ := ih as (b :: bs) p hp a ha
            exact ⟨List.mem_cons_of_mem _ hm, hcc⟩
          · rw [if_neg hl] at hp
            simp only [itemsTrace] at hp
            rcases List.mem_cons.mp hp with rfl | hp'
            · simp at ha
            · exact ih (x :: as) bs p hp' a ha

/-! ## Lemmas about `diagnosticsToBaseline` -/

theorem keysOf_append (m₁ m₂ : List (String × α)) :
    keysOf (m₁ ++ m₂) = keysOf m₁ ++ keysOf m₂ := by
  simp [keysOf]

theorem keysOf_pushAt (m : List (String × List α)) (k : String) (vs : List α) :
    keysOf (pushAt m k vs) = keysOf m := by
  simp only [keysOf, pushAt, List.map_map]
  apply List.map_congr_left
  intro p _
  by_cases h : p.1 = k <;> simp [h]

theorem hasKey_append {m₁ m₂ : List (String × α)} {k : String} :
    hasKey (m₁ ++ m₂) k = (hasKey m₁ k || hasKey m₂ k) := by
  simp [hasKey]

theorem map_fst_pushAt (m : List (String × List α)) (k : String) (vs : List α) :
    List.map (fun x => x.1) (pushAt m k vs) = List.map (fun x => x.1) m := by
  simp only [pushAt, List.map_map]
  apply List.map_congr_left
  intro p _
  by_cases h : p.1 = k <;> simp [h]

theorem keysOf_dtbStep (rel : String → Option String)
    (acc : List (String × List BaselinedDiagnostic)) (f : FileDiagnostics) :
    keysOf (diagnosticsToBaselineStep rel acc f) =
      if hasKey acc ((rel f.fileUri).getD "") then keysOf acc
      else keysOf acc ++ [(rel f.fileUri).getD ""] := by
  by_cases he : (f.diagnostics.filter baselineFilter).isEmpty <;>
    by_cases hk : hasKey acc ((rel f.fileUri).getD "") <;>
      simp [diagnosticsToBaselineStep, he, hk, map_fst_pushAt, keysOf]

theorem dtb_keys_nodup (rel : String → Option String) :
    ∀ (fwd : List FileDiagnostics) (acc : List (String × List BaselinedDiagnostic)),
      (keysOf acc).Nodup →
      (keysOf (fwd.foldl (diagnosticsToBaselineStep rel) acc)).Nodup := by
  intro fwd
  induction fwd with
  | nil => intro acc h; exact h
  | cons f rest ih =>
    intro acc h
    simp only [List.foldl_cons]
    apply ih
    rw [keysOf_dtbStep]
    split
    · exact h
    · next hk =>
      refine List.Nodup.append h (by simp) ?_
      intro a ha hb
      rcases List.mem_singleton.mp hb with rfl
      exact (hasKey_eq_false_iff.mp (by simpa using hk)) ha

theorem diagnosticsToBaseline_keys_nodup (rel : String → Option String)
    (fwd : List FileDiagnostics) :
    (keysOf (diagnosticsToBaseline rel fwd).files).Nodup :=
  dtb_keys_nodup rel fwd [] (by simp [keysOf])

theorem dtbStep_vals (rel : String → Option String) (Q : BaselinedDiagnostic → Prop)
    (acc : List (String × List BaselinedDiagnostic)) (f : FileDiagnostics)
    (hacc : ∀ q ∈ acc, ∀ e ∈ q.2, Q e)
    (hf : ∀ d ∈ f.diagnostics, baselineFilter d = true → Q (toBaselined d)) :
    ∀ q ∈ diagnosticsToBaselineStep rel acc f, ∀ e ∈ q.2, Q e := by
  intro q hq e he
  have hacc1 : ∀ q' ∈ (if hasKey acc ((rel f.fileUri).getD "") then acc
      else acc ++ [((rel f.fileUri).getD "", [])]), ∀ e' ∈ q'.2, Q e' := by
    split
    · exact hacc
    · intro q' hq' e' he'
      rcases List.mem_append.mp hq' with h | h
      · exact hacc q' h e' he'
      · rcases List.mem_singleton.mp h with rfl
        simp at he'
  simp only [diagnosticsToBaselineStep] at hq
  split at hq
  · exact hacc1 q hq e he
  · obtain ⟨p, hp, hpq⟩ := List.mem_map.mp hq
    by_cases hfp : p.1 = (rel f.fileUri).getD ""
    · rw [if_pos hfp] at hpq
      subst hpq
      rcases List.mem_append.mp he with h | h
      · exact hacc1 p hp e h
      · obtain ⟨d, hd, rfl⟩ := List.mem_map.mp h
        have hmem := List.mem_filter.mp hd
        exact hf d hmem.1 hmem.2
    · rw [if_neg hfp] at hpq
      subst hpq
      exact hacc1 p hp e he

theorem dtb_vals (rel : String → Option String) (Q : BaselinedDiagnostic → Prop) :
    ∀ (fwd : List FileDiagnostics) (acc : List (String × List BaselinedDiagnostic)),
      (∀ q ∈ acc, ∀ e ∈ q.2, Q e) →
      (∀ f ∈ fwd, ∀ d ∈ f.diagnostics, baselineFilter d = true → Q (toBaselined d)) →
      ∀ q ∈ fwd.foldl (diagnosticsToBaselineStep rel) acc, ∀ e ∈ q.2, Q e := by
  intro fwd
  induction fwd with
  | nil =>
    intro acc hacc _ q hq e he
    exact hacc q hq e he
  | cons f rest ih =>
    intro acc hacc hfwd q hq e he
    simp only [List.foldl_cons] at hq
    exact ih (diagnosticsToBaselineStep rel acc f)
      (dtbStep_vals rel Q acc f hacc
        (fun d hd hb => hfwd f (List.mem_cons_self f rest) d hd hb))
      (fun g hg => hfwd g (List.mem_cons_of_mem _ hg)) q hq e he

/-! ## Lemmas about the merge loop of `writeDiagnosticsToBaselineFile` -/

theorem foldl_mergePreviousStep (fexists : String → Bool) (flag : Bool) :
    ∀ (prev : List (String × List BaselinedDiagnostic))
      (acc : List (String × List BaselinedDiagnostic)),
      (keysOf prev).Nodup →
      prev.foldl (mergePreviousStep fexists flag) acc =
        acc ++ prev.filter (fun q => !hasKey acc q.1 && (flag || fexists q.1)) := by
  intro prev
  induction prev with
  | nil => intro acc _; simp
  | cons q rest ih =>
    intro acc hnd
    have hndr : (keysOf rest).Nodup := (List.nodup_cons.mp (by simpa [keysOf] using hnd)).2
    have hq1 : q.1 ∉ keysOf rest := (List.nodup_cons.mp (by simpa [keysOf] using hnd)).1
    simp only [List.foldl_cons]
    by_cases hcond : (!hasKey acc q.1 && (flag || fexists q.1)) = true
    · have hstep : mergePreviousStep fexists flag acc q = acc ++ [q] := by
        simp [mergePreviousStep, hcond]
      rw [hstep, ih (acc ++ [q]) hndr]
      have hfilter : rest.filter (fun p => !hasKey (acc ++ [q]) p.1 && (flag || fexists p.1)) =
          rest.filter (fun p => !hasKey acc p.1 && (flag || fexists p.1)) := by
        apply List.filter_congr
        intro p hp
        have hne : p.1 ≠ q.1 := fun hcontra =>
          hq1 (hcontra ▸ List.mem_map_of_mem (·.1) hp)
        have hbeq : (q.1 == p.1) = false := beq_eq_false_iff_ne.mpr (Ne.symm hne)
        rw [hasKey_append]
        simp [hasKey, hbeq]
      rw [hfilter]
      simp [List.filter_cons, hcond]
    · have hstep : mergePreviousStep fexists flag acc q = acc := by
        simp only [mergePreviousStep]
        rw [if_neg (by simpa using hcond)]
      have hcond' : (!hasKey acc q.1 && (flag || fexists q.1)) = false := by
        simpa using hcond
      rw [hstep, ih acc hndr]
      simp [List.filter_cons, hcond']

/-! ## Characterization of `writeDiagnosticsToBaselineFile` -/

/-- The merged association list `writeDiagnosticsToBaselineFile` builds
(new baseline plus retained previous files) before sorting and filtering. -/
def writeMerged (rel : String → Option String) (fexists : String → Bool)
    (flag : Bool) (fwd : List FileDiagnostics) (prev : BaselineFile) :
    List (String × List BaselinedDiagnostic) :=
  (diagnosticsToBaseline rel fwd).files ++
    prev.files.filter (fun q =>
      !hasKey (diagnosticsToBaseline rel fwd).files q.1 && (flag || fexists q.1))

/-- The `BaselineFile` value `writeDiagnosticsToBaselineFile` produces. -/
def writeResult (rel : String → Option String) (fexists : String → Bool)
    (flag : Bool) (fwd : List FileDiagnostics) (prev : BaselineFile) :
    BaselineFile :=
  ⟨(List.insertionSort entryLe (writeMerged rel fexists flag fwd prev)).filter
      (fun q => !q.2.isEmpty)⟩

theorem write_eq {readFile : String → Option String}
    {parse : String → Option BaselineFile} {rel : String → Option String}
    {fexists : String → Bool} {rootDir : String} {fwd : List FileDiagnostics}
    {flag : Bool} {prev : BaselineFile}
    (hload : getBaselinedErrors readFile parse rootDir = .ok prev)
    (hnd : (keysOf prev.files).Nodup) :
    writeDiagnosticsToBaselineFile readFile parse rel fexists rootDir fwd flag =
      .ok (serializeBaseline (writeResult rel fexists flag fwd prev),
        writeResult rel fexists flag fwd prev) := by
  unfold writeDiagnosticsToBaselineFile
  rw [hload]
  simp only [writeResult, writeMerged]
  rw [foldl_mergePreviousStep fexists flag prev.files _ hnd]

theorem mem_writeResult_iff {rel : String → Option String}
    {fexists : String → Bool} {flag : Bool} {fwd : List FileDiagnostics}
    {prev : BaselineFile} {x : String × List BaselinedDiagnostic} :
    x ∈ (writeResult rel fexists flag fwd prev).files ↔
      ((x ∈ (diagnosticsToBaseline rel fwd).files ∨
          (x ∈ prev.files ∧ hasKey (diagnosticsToBaseline rel fwd).files x.1 = false ∧
            (flag || fexists x.1) = true)) ∧ x.2 ≠ []) := by
  unfold writeResult
  rw [List.mem_filter]
  rw [(List.perm_insertionSort entryLe _).mem_iff]
  unfold writeMerged
  rw [List.mem_append, List.mem_filter]
  simp [Bool.and_eq_true, List.isEmpty_iff]

theorem writeMerged_keys_nodup {rel : String → Option String}
    {fexists : String → Bool} {flag : Bool} {fwd : List FileDiagnostics}
    {prev : BaselineFile} (hnd : (keysOf prev.files).Nodup) :
    (keysOf (writeMerged rel fexists flag fwd prev)).Nodup := by
  rw [writeMerged, keysOf_append]
  refine List.Nodup.append (diagnosticsToBaseline_keys_nodup rel fwd) ?_ ?_
  · have hnd' : (prev.files.map (·.1)).Nodup := by simpa [keysOf] using hnd
    simpa [keysOf] using ((List.filter_sublist prev.files).map (·.1)).nodup hnd'
  · intro a ha hb
    simp only [keysOf] at hb
    obtain ⟨q, hq, rfl⟩ := List.mem_map.mp hb
    have hcond := (List.mem_filter.mp hq).2
    have hk : hasKey (diagnosticsToBaseline rel fwd).files q.1 = false := by
      simp only [Bool.and_eq_true] at hcond
      simpa using hcond.1
    exact (hasKey_eq_false_iff.mp hk) ha

theorem writeResult_keys_nodup {rel : String → Option String}
    {fexists : String → Bool} {flag : Bool} {fwd : List FileDiagnostics}
    {prev : BaselineFile} (hnd : (keysOf prev.files).Nodup) :
    (keysOf (writeResult rel fexists flag fwd prev).files).Nodup := by
  have hp : (List.insertionSort entryLe (writeMerged rel fexists flag fwd prev)).Perm
      (writeMerged rel fexists flag fwd prev) := List.perm_insertionSort _ _
  have hm := @writeMerged_keys_nodup rel fexists flag fwd prev hnd
  have h₁ : ((List.insertionSort entryLe
      (writeMerged rel fexists flag fwd prev)).map (·.1)).Nodup := by
    refine ((hp.map (·.1)).nodup_iff).mpr ?_
    simpa [keysOf] using hm
  simp only [keysOf, writeResult]
  exact ((List.filter_sublist (List.insertionSort entryLe
    (writeMerged rel fexists flag fwd prev))).map (·.1)).nodup h₁

theorem writeResult_sorted {rel : String → Option String}
    {fexists : String → Bool} {flag : Bool} {fwd : List FileDiagnostics}
    {prev : BaselineFile} :
    List.Pairwise entryLe (writeResult rel fexists flag fwd prev).files :=
  List.Pairwise.sublist (List.filter_sublist _)
    (List.sorted_insertionSort entryLe _)

theorem writeResult_no_empty {rel : String → Option String}
    {fexists : String → Bool} {flag : Bool} {fwd : List FileDiagnostics}
    {prev : BaselineFile} :
    ∀ q ∈ (writeResult rel fexists flag fwd prev).files, q.2 ≠ [] := by
  intro q hq
  exact (mem_writeResult_iff.mp hq).2

/-- Two key-sorted association lists with unique keys and the same members
are equal. -/
theorem sorted_files_ext {l₁ l₂ : List (String × List BaselinedDiagnostic)}
    (hs₁ : List.Pairwise entryLe l₁) (hs₂ : List.Pairwise entryLe l₂)
    (hnd₁ : (keysOf l₁).Nodup) (hnd₂ : (keysOf l₂).Nodup)
    (hmem : ∀ x, x ∈ l₁ ↔ x ∈ l₂) : l₁ = l₂ := by
  have hnodup₁ : l₁.Nodup := List.Nodup.of_map _ hnd₁
  have hnodup₂ : l₂.Nodup := List.Nodup.of_map _ hnd₂
  have hperm : l₁.Perm l₂ := (List.perm_ext_iff_of_nodup hnodup₁ hnodup₂).mpr hmem
  exact pairwise_perm_eq hperm hs₁ hs₂
    (fun a ha b hb h₁ h₂ => eq_of_mem_of_keys_nodup hnd₁ ha hb (strLe_antisymm h₁ h₂))

/-! ## Claim theorems -/

/-- **C1** (corrected).  Loading the baseline (`getBaselinedErrors`) returns
the empty baseline `⟨[]⟩` (i.e. `{ files: {} }`) when reading the file
fails (missing file), and the parsed baseline when parsing succeeds; but,
contrary to the claim as stated, an unparsable (corrupt) file makes the
`JSON.parse` error escape to the caller, because only `fs.readFileSync` is
inside the `try` block (`baseline.ts` lines 133-137). -/
theorem C1_load_missing_or_corrupt (readFile : String → Option String)
    (parse : String → Option BaselineFile) (rootDir : String) :
    (readFile (baselineFilePath rootDir) = none →
      getBaselinedErrors readFile parse rootDir = .ok ⟨[]⟩) ∧
    (∀ s b, readFile (baselineFilePath rootDir) = some s → parse s = some b →
      getBaselinedErrors readFile parse rootDir = .ok b) ∧
    (∀ s, readFile (baselineFilePath rootDir) = some s → parse s = none →
      getBaselinedErrors readFile parse rootDir = .error .parseError) := by
  refine ⟨?_, ?_, ?_⟩
  · intro h
    simp [getBaselinedErrors, h]
  · intro s b hr hp
    simp [getBaselinedErrors, hr, hp]
  · intro s hr hp
    simp [getBaselinedErrors, hr, hp]

/-- Witness for C1: a missing file loads as the empty baseline, a parsable
file loads as its contents, and a corrupt file raises. -/
theorem C1_load_missing_or_corrupt_witness :
    getBaselinedErrors (fun _ => none) (fun _ => some ⟨[]⟩) "/project" =
      .ok ⟨[]⟩ ∧
    getBaselinedErrors (fun _ => some "x")
      (fun _ => some ⟨[("a.py", [])]⟩) "/project" = .ok ⟨[("a.py", [])]⟩ ∧
    getBaselinedErrors (fun _ => some "oops") (fun _ => none) "/project" =
      .error .parseError :=
  ⟨(C1_load_missing_or_corrupt (fun _ => none) (fun _ => some ⟨[]⟩) "/project").1 rfl,
   (C1_load_missing_or_corrupt (fun _ => some "x")
      (fun _ => some ⟨[("a.py", [])]⟩) "/project").2.1 "x" ⟨[("a.py", [])]⟩ rfl rfl,
   (C1_load_missing_or_corrupt (fun _ => some "oops")
      (fun _ => none) "/project").2.2 "oops" rfl rfl⟩

/-- **C1 counterexample**: with a present but unparsable baseline file,
`getBaselinedErrors` raises the parse error to the caller instead of
returning the empty baseline, refuting "never raises an error". -/
theorem C1_counterexample :
    getBaselinedErrors (fun _ => some "not json") (fun _ => none) "/project" =
      .error .parseError ∧
    ∀ b : BaselineFile,
      getBaselinedErrors (fun _ => some "not json") (fun _ => none) "/project" ≠
        .ok b := by
  constructor
  · rfl
  · intro b h
    simp [getBaselinedErrors] at h

/-- **C10** (corrected).  `getBaselinedErrorsForFile` returns `[]` for a
file outside the workspace (no relative path, or the falsy empty relative
path), and `[]` for a file with no entry in a baseline that loads; but,
contrary to the claim as stated, for an in-workspace file with a corrupt
baseline file it propagates the parse error (through
`getBaselinedErrors`). -/
theorem C10_errors_for_file_empty (readFile : String → Option String)
    (parse : String → Option BaselineFile) (rel : String → Option String)
    (rootDir file : String) :
    (rel file = none →
      getBaselinedErrorsForFile readFile parse rel rootDir file = .ok []) ∧
    (rel file = some "" →
      getBaselinedErrorsForFile readFile parse rel rootDir file = .ok []) ∧
    (∀ p prevB, rel file = some p →
      getBaselinedErrors readFile parse rootDir = .ok prevB →
      lookupVal prevB.files p = none →
      getBaselinedErrorsForFile readFile parse rel rootDir file = .ok []) := by
  refine ⟨?_, ?_, ?_⟩
  · intro h
    simp [getBaselinedErrorsForFile, h]
  · intro h
    simp [getBaselinedErrorsForFile, h]
  · intro p prevB hrel hload hlook
    by_cases hp : p = ""
    · subst hp
      simp [getBaselinedErrorsForFile, hrel]
    · simp [getBaselinedErrorsForFile, hrel, hp, hload, hlook, Except.map]

/-- Witness for C10: an out-of-workspace file and an in-workspace file with
no baseline entry both get the empty list. -/
theorem C10_errors_for_file_empty_witness :
    getBaselinedErrorsForFile (fun _ => none) (fun _ => none) (fun _ => none)
      "/project" "/elsewhere/a.py" = .ok [] ∧
    getBaselinedErrorsForFile (fun _ => none) (fun _ => none)
      (fun _ => some "a.py") "/project" "/project/a.py" = .ok [] :=
  ⟨(C10_errors_for_file_empty (fun _ => none) (fun _ => none) (fun _ => none)
      "/project" "/elsewhere/a.py").1 rfl,
   (C10_errors_for_file_empty (fun _ => none) (fun _ => none)
      (fun _ => some "a.py") "/project" "/project/a.py").2.2 "a.py" ⟨[]⟩ rfl rfl rfl⟩

/-- **C10 counterexample**: an in-workspace file over a corrupt baseline
file makes `getBaselinedErrorsForFile` fail instead of returning `[]`. -/
theorem C10_counterexample :
    getBaselinedErrorsForFile (fun _ => some "garbage") (fun _ => none)
      (fun _ => some "a.py") "/project" "/project/a.py" = .error .parseError ∧
    ∀ l : List BaselinedDiagnostic,
      getBaselinedErrorsForFile (fun _ => some "garbage") (fun _ => none)
        (fun _ => some "a.py") "/project" "/project/a.py" ≠ .ok l := by
  constructor
  · rfl
  · intro l h
    simp [getBaselinedErrorsForFile, getBaselinedErrors, Except.map] at h

/-- The claim's line-insertion scenario: all lines of a diagnostic's span
shifted down by `k` (inserting `k` unrelated lines above it), columns and
line count unchanged. -/
def shiftDiagnosticLines (k : Nat) (d : Diagnostic) : Diagnostic :=
  { d with
      range :=
        { start := ⟨d.range.start.line + k, d.range.start.character⟩
          stop := ⟨d.range.stop.line + k, d.range.stop.character⟩ } }

/-- **C4** (confirmed).  The reconciler's match predicate holds exactly
when the rule identifiers agree, the start and end columns agree, and the
baseline entry's `lineCount` is either absent (old-format wildcard) or
equal to the diagnostic's span line count; consequently it is invariant
under shifting the diagnostic's absolute line numbers. -/
theorem C4_match_predicate (b : BaselinedDiagnostic) (d : Diagnostic) :
    (baselineDiagnosticMatches b d = true ↔
      (b.code = d.rule ∧ b.range.startColumn = d.range.start.character ∧
        b.range.endColumn = d.range.stop.character ∧
        (b.range.lineCount = none ∨ b.range.lineCount = some (lineCount d.range)))) ∧
    (∀ k, baselineDiagnosticMatches b (shiftDiagnosticLines k d) =
      baselineDiagnosticMatches b d) := by
  constructor
  · simp [baselineDiagnosticMatches, and_assoc]
  · intro k
    have h : d.range.stop.line + k - (d.range.start.line + k) =
        d.range.stop.line - d.range.start.line := by omega
    simp [baselineDiagnosticMatches, shiftDiagnosticLines, lineCount, h]

/-- Witness for C4, the spec's §8 scenario: a diagnostic at columns
`[4,10]`, line count 1, still matches its entry after 5 lines are inserted
above it. -/
theorem C4_match_predicate_witness :
    baselineDiagnosticMatches ⟨some "reportX", ⟨4, 10, some 1⟩⟩
        (shiftDiagnosticLines 5 ⟨.error, ⟨⟨10, 4⟩, ⟨10, 10⟩⟩, "m", some "reportX", none⟩) =
      baselineDiagnosticMatches ⟨some "reportX", ⟨4, 10, some 1⟩⟩
        ⟨.error, ⟨⟨10, 4⟩, ⟨10, 10⟩⟩, "m", some "reportX", none⟩ ∧
    baselineDiagnosticMatches ⟨some "reportX", ⟨4, 10, some 1⟩⟩
      ⟨.error, ⟨⟨10, 4⟩, ⟨10, 10⟩⟩, "m", some "reportX", none⟩ = true :=
  ⟨(C4_match_predicate ⟨some "reportX", ⟨4, 10, some 1⟩⟩
      ⟨.error, ⟨⟨10, 4⟩, ⟨10, 10⟩⟩, "m", some "reportX", none⟩).2 5,
   by decide⟩

/-- **C9** (confirmed).  Every entry of a baseline produced by
`diagnosticsToBaseline` is the fingerprint of an input diagnostic that
passed the hint filter, i.e. whose category is not one of `Deprecated`,
`UnreachableCode`, `UnusedCode` unless it is marked
`'baselined with hint'`. -/
theorem C9_baseline_only_non_hint (rel : String → Option String)
    (fwd : List FileDiagnostics) :
    (∀ q ∈ (diagnosticsToBaseline rel fwd).files, ∀ e ∈ q.2,
      ∃ f ∈ fwd, ∃ d ∈ f.diagnostics, baselineFilter d = true ∧
        e = toBaselined d) ∧
    (∀ d : Diagnostic, baselineFilter d = true ↔
      (d.category ∉ hintDiagnosticCategories ∨
        d.baselineStatus = some .baselinedWithHint)) := by
  constructor
  · intro q hq e he
    exact dtb_vals rel
      (fun e => ∃ f ∈ fwd, ∃ d ∈ f.diagnostics, baselineFilter d = true ∧
        e = toBaselined d)
      fwd [] (by simp) (fun f hf d hd hb => ⟨f, hf, d, hd, hb, rfl⟩) q hq e he
  · intro d
    simp [baselineFilter, List.elem_iff]

theorem contains_iff {α : Type} [BEq α] [LawfulBEq α] {l : List α} {a : α} :
    l.contains a = true ↔ a ∈ l := by
  simp [List.contains_iff_exists_mem_beq]

/-- `applyBaseline` on a diagnostic whose rule belongs to no tier of the
tier list just marks it `'baselined'`. -/
theorem applyBaseline_of_no_tier (tiers : List ExtraOptionDiagnosticRule)
    (d : Diagnostic) (hno : ∀ t ∈ tiers, ∀ r, d.rule = some r → r ∉ t.rules) :
    applyBaseline tiers d = { d with baselineStatus := some .baselined } := by
  cases hr : d.rule with
  | none => simp [applyBaseline, hr]
  | some r =>
    by_cases hre : r = ""
    · simp [applyBaseline, hr, hre]
    · have hfind : tiers.find? (fun t => t.rules.contains r) = none := by
        rw [List.find?_eq_none]
        intro t ht hc
        exact hno t ht r hr (contains_iff.mp hc)
      have hfind' : tiers.find? (fun t => decide (r ∈ t.rules)) = none := by
        have he : (fun t : ExtraOptionDiagnosticRule => t.rules.contains r) =
            (fun t : ExtraOptionDiagnosticRule => decide (r ∈ t.rules)) := by
          funext t
          rcases h : t.rules.contains r with _ | _
          · exact (decide_eq_false (fun hm => by
              rw [contains_iff.mpr hm] at h; cases h)).symm
          · exact (decide_eq_true (contains_iff.mp h)).symm
        rw [← he]
        exact hfind
      simp [applyBaseline, hr, hre, hfind, hfind']

/-- **C2** (corrected).  Reconciliation classifies each (sorted) current
diagnostic as either unmatched (passes through unchanged) or matched with a
previous baseline entry the comparator accepts; previous-only entries
contribute nothing to the output; a diagnostic no previous entry matches
passes through unchanged (and stays visible unless it was already marked
`'baselined'`); a matched diagnostic whose rule supports no hint tier is
marked `'baselined'`, suppressed from the modelled visible set, and —
provided its own category is not itself a hint category — still accepted
by the rebuilt baseline's filter (`baselineFilter`). -/
theorem C2_reconciliation_classification (tiers : List ExtraOptionDiagnosticRule)
    (prev : List BaselinedDiagnostic) (current : List Diagnostic) :
    sortDiagnosticsAndMatchBaselineCore tiers prev current =
      (itemsTrace (diffArrays baselineDiagnosticMatches prev
        (sortDiags current))).map (stepFn tiers) ∧
    (itemsTrace (diffArrays baselineDiagnosticMatches prev
      (sortDiags current))).map Prod.fst = sortDiags current ∧
    (∀ p ∈ itemsTrace (diffArrays baselineDiagnosticMatches prev
        (sortDiags current)),
      ∀ b, p.2 = some b → b ∈ prev ∧ baselineDiagnosticMatches b p.1 = true) ∧
    (∀ p ∈ itemsTrace (diffArrays baselineDiagnosticMatches prev
        (sortDiags current)),
      (∀ b ∈ prev, baselineDiagnosticMatches b p.1 = false) →
        stepFn tiers p = p.1 ∧
        (p.1.baselineStatus ≠ some .baselined →
          p.1 ∈ visibleDiagnostics
            (sortDiagnosticsAndMatchBaselineCore tiers prev current))) ∧
    (∀ p ∈ itemsTrace (diffArrays baselineDiagnosticMatches prev
        (sortDiags current)),
      p.2 ≠ none →
      (∀ t ∈ tiers, ∀ r, p.1.rule = some r → r ∉ t.rules) →
        (stepFn tiers p).baselineStatus = some .baselined ∧
        (stepFn tiers p) ∉ visibleDiagnostics
          (sortDiagnosticsAndMatchBaselineCore tiers prev current) ∧
        (p.1.category ∉ hintDiagnosticCategories →
          baselineFilter (stepFn tiers p) = true)) := by
  have hout : sortDiagnosticsAndMatchBaselineCore tiers prev current =
      (itemsTrace (diffArrays baselineDiagnosticMatches prev
        (sortDiags current))).map (stepFn tiers) := by
    rw [sortDiagnosticsAndMatchBaselineCore]
    exact processDiff_eq_map_stepFn tiers _
  have hmatched := fun p hp => itemsTrace_diffF_matched baselineDiagnosticMatches
    (prev.length + (sortDiags current).length) prev (sortDiags current) p hp
  refine ⟨hout, ?_, hmatched, ?_, ?_⟩
  · exact itemsTrace_diffF_map_fst baselineDiagnosticMatches _ prev
      (sortDiags current) le_rfl
  · intro p hp hnone
    have hstep : stepFn tiers p = p.1 := by
      cases hp2 : p.2 with
      | none => simp [stepFn, hp2]
      | some b =>
        have := (hmatched p hp b hp2)
        exact absurd (hnone b this.1) (by simp [this.2])
    refine ⟨hstep, ?_⟩
    intro hstatus
    have hm : p.1 ∈ (itemsTrace (diffArrays baselineDiagnosticMatches prev
        (sortDiags current))).map (stepFn tiers) :=
      List.mem_map.mpr ⟨p, hp, hstep⟩
    rw [hout]
    exact List.mem_filter.mpr ⟨hm, by simpa using hstatus⟩
  · intro p hp hne hno
    obtain ⟨b, hb⟩ := Option.ne_none_iff_exists'.mp hne
    have hstep : stepFn tiers p = applyBaseline tiers p.1 := by
      simp [stepFn, hb]
    have happ := applyBaseline_of_no_tier tiers p.1 hno
    have hstatus : (stepFn tiers p).baselineStatus = some .baselined := by
      rw [hstep, happ]
    refine ⟨hstatus, ?_, ?_⟩
    · intro hmem
      have := (List.mem_filter.mp hmem).2
      simp [hstatus] at this
    · intro hcat
      have hc : (stepFn tiers p).category = p.1.category := by
        rw [hstep, happ]
      have hcat' : (stepFn tiers p).category ∉ hintDiagnosticCategories := by
        rw [hc]
        exact hcat
      simp [baselineFilter, hcat']

/-- Witness for C2: a matched error-category diagnostic whose rule is in no
hint tier is marked baselined, suppressed from the visible set, and still
accepted by the rebuilt baseline's filter. -/
theorem C2_reconciliation_classification_witness :
    (stepFn extraOptionDiagnosticRules
        (⟨.error, ⟨⟨0, 4⟩, ⟨0, 10⟩⟩, "m", some "reportX", none⟩,
          some ⟨some "reportX", ⟨4, 10, some 1⟩⟩)).baselineStatus =
      some .baselined ∧
    (stepFn extraOptionDiagnosticRules
        (⟨.error, ⟨⟨0, 4⟩, ⟨0, 10⟩⟩, "m", some "reportX", none⟩,
          some ⟨some "reportX", ⟨4, 10, some 1⟩⟩)) ∉
      visibleDiagnostics (sortDiagnosticsAndMatchBaselineCore
        extraOptionDiagnosticRules [⟨some "reportX", ⟨4, 10, some 1⟩⟩]
        [⟨.error, ⟨⟨0, 4⟩, ⟨0, 10⟩⟩, "m", some "reportX", none⟩]) ∧
    baselineFilter (stepFn extraOptionDiagnosticRules
        (⟨.error, ⟨⟨0, 4⟩, ⟨0, 10⟩⟩, "m", some "reportX", none⟩,
          some ⟨some "reportX", ⟨4, 10, some 1⟩⟩)) = true := by
  have h := (C2_reconciliation_classification extraOptionDiagnosticRules
      [⟨some "reportX", ⟨4, 10, some 1⟩⟩]
      [⟨.error, ⟨⟨0, 4⟩, ⟨0, 10⟩⟩, "m", some "reportX", none⟩]).2.2.2.2
    (⟨.error, ⟨⟨0, 4⟩, ⟨0, 10⟩⟩, "m", some "reportX", none⟩,
      some ⟨some "reportX", ⟨4, 10, some 1⟩⟩)
    (by decide) (by decide) (by decide)
  exact ⟨h.1, h.2.1, h.2.2 (by decide)⟩

/-- **C2 counterexample**: a matched diagnostic whose rule supports no hint
tier but whose own category is a hint category (`UnreachableCode`) is
suppressed from the visible set yet contributes no entry to the rebuilt
baseline (`diagnosticsToBaseline` drops it), refuting "still counted". -/
theorem C2_counterexample :
    sortDiagnosticsAndMatchBaselineCore extraOptionDiagnosticRules
        [⟨none, ⟨0, 1, some 1⟩⟩]
        [⟨.unreachableCode, ⟨⟨0, 0⟩, ⟨0, 1⟩⟩, "", none, none⟩] =
      [⟨.unreachableCode, ⟨⟨0, 0⟩, ⟨0, 1⟩⟩, "", none, some .baselined⟩] ∧
    visibleDiagnostics
        [⟨.unreachableCode, ⟨⟨0, 0⟩, ⟨0, 1⟩⟩, "", none, some .baselined⟩] = [] ∧
    (diagnosticsToBaseline (fun _ => some "f.py")
        [⟨"f.py", [⟨.unreachableCode, ⟨⟨0, 0⟩, ⟨0, 1⟩⟩, "", none,
          some .baselined⟩]⟩]).files = [("f.py", [])] :=
  ⟨by decide, by decide, by decide⟩

/-- **C5** (confirmed).  A matched diagnostic whose (truthy) rule belongs to
at least one extra hint tier is demoted to exactly the first matching tier
in the fixed iteration order over the tier list and marked
`'baselined with hint'`; and the reconciler emits exactly one output
diagnostic per input diagnostic, so the demoted diagnostic appears exactly
once — never duplicated and never demoted to two tiers. -/
theorem C5_hint_demotion_first_tier (tiers : List ExtraOptionDiagnosticRule)
    (d : Diagnostic) (r : String) (t₀ : ExtraOptionDiagnosticRule)
    (hr : d.rule = some r) (hne : r ≠ "")
    (hfind : tiers.find? (fun t => t.rules.contains r) = some t₀) :
    applyBaseline tiers d =
      { d with category := convertLevelToCategory t₀.name
               baselineStatus := some .baselinedWithHint } ∧
    t₀ ∈ tiers ∧ r ∈ t₀.rules ∧
    (∃ pre post, tiers = pre ++ t₀ :: post ∧ ∀ t ∈ pre, r ∉ t.rules) ∧
    (∀ prev current,
      (sortDiagnosticsAndMatchBaselineCore tiers prev current).length =
        current.length) := by
  have he : (fun t : ExtraOptionDiagnosticRule => t.rules.contains r) =
      (fun t : ExtraOptionDiagnosticRule => decide (r ∈ t.rules)) := by
    funext t
    rcases h : t.rules.contains r with _ | _
    · exact (decide_eq_false (fun hm => by
        rw [contains_iff.mpr hm] at h; cases h)).symm
    · exact (decide_eq_true (contains_iff.mp h)).symm
  have hfind' : tiers.find? (fun t => decide (r ∈ t.rules)) = some t₀ := by
    rw [← he]
    exact hfind
  refine ⟨?_, ?_, ?_, ?_, ?_⟩
  · simp [applyBaseline, hr, hne, hfind, hfind']
  · exact List.mem_of_find?_eq_some hfind
  · have hth := List.find?_some hfind'
    simpa using hth
  · obtain ⟨pre, post, heq, hpre⟩ := find?_eq_some_split hfind
    refine ⟨pre, post, heq, ?_⟩
    intro t ht hm
    have hcf := hpre t ht
    rw [contains_iff.mpr hm] at hcf
    cases hcf
  · intro prev current
    rw [sortDiagnosticsAndMatchBaselineCore, diffArrays,
      processDiff_eq_map_stepFn, List.length_map]
    have hfst := itemsTrace_diffF_map_fst baselineDiagnosticMatches
      (prev.length + (sortDiags current).length) prev (sortDiags current) le_rfl
    have hlen := congrArg List.length hfst
    rw [List.length_map] at hlen
    rw [hlen]
    exact (List.perm_insertionSort diagLe current).length_eq

/-- Witness for C5: a baselined `reportUnreachable` diagnostic is demoted
to the unreachable hint tier exactly once. -/
theorem C5_hint_demotion_first_tier_witness :
    applyBaseline extraOptionDiagnosticRules
        ⟨.error, ⟨⟨3, 0⟩, ⟨3, 5⟩⟩, "m", some "reportUnreachable", none⟩ =
      ⟨.unreachableCode, ⟨⟨3, 0⟩, ⟨3, 5⟩⟩, "m", some "reportUnreachable",
        some .baselinedWithHint⟩ ∧
    (sortDiagnosticsAndMatchBaselineCore extraOptionDiagnosticRules
        [⟨some "reportUnreachable", ⟨0, 5, some 1⟩⟩]
        [⟨.error, ⟨⟨3, 0⟩, ⟨3, 5⟩⟩, "m", some "reportUnreachable", none⟩]).length = 1 :=
  ⟨(C5_hint_demotion_first_tier extraOptionDiagnosticRules
      ⟨.error, ⟨⟨3, 0⟩, ⟨3, 5⟩⟩, "m", some "reportUnreachable", none⟩
      "reportUnreachable" ⟨.unreachable, ["reportUnreachable"]⟩
      rfl (by decide) rfl).1,
   (C5_hint_demotion_first_tier extraOptionDiagnosticRules
      ⟨.error, ⟨⟨3, 0⟩, ⟨3, 5⟩⟩, "m", some "reportUnreachable", none⟩
      "reportUnreachable" ⟨.unreachable, ["reportUnreachable"]⟩
      rfl (by decide) rfl).2.2.2.2
    [⟨some "reportUnreachable", ⟨0, 5, some 1⟩⟩]
    [⟨.error, ⟨⟨3, 0⟩, ⟨3, 5⟩⟩, "m", some "reportUnreachable", none⟩]⟩

/-- **C8** (corrected).  For inputs in which no two distinct diagnostics
share the modelled sort key (start line, start column, rule identifier),
reconciliation gives identical output — visible sequence included — for
every permutation of the input.  For key-equal distinct diagnostics the
stable sort preserves input order, so the output can differ (see the
counterexample). -/
theorem C8_order_insensitive (tiers : List ExtraOptionDiagnosticRule)
    (prev : List BaselinedDiagnostic) (l₁ l₂ : List Diagnostic)
    (hperm : l₁.Perm l₂)
    (hinj : ∀ a ∈ l₁, ∀ b ∈ l₁,
      a.range.start.line = b.range.start.line →
      a.range.start.character = b.range.start.character →
      a.rule.getD "" = b.rule.getD "" → a = b) :
    sortDiagnosticsAndMatchBaselineCore tiers prev l₁ =
      sortDiagnosticsAndMatchBaselineCore tiers prev l₂ ∧
    visibleDiagnostics (sortDiagnosticsAndMatchBaselineCore tiers prev l₁) =
      visibleDiagnostics (sortDiagnosticsAndMatchBaselineCore tiers prev l₂) := by
  have hsort : sortDiags l₁ = sortDiags l₂ := by
    apply pairwise_perm_eq
      (((List.perm_insertionSort diagLe l₁).trans hperm).trans
        (List.perm_insertionSort diagLe l₂).symm)
      (List.sorted_insertionSort diagLe l₁)
      (List.sorted_insertionSort diagLe l₂)
    intro a ha b hb hab hba
    have ha' : a ∈ l₁ := ((List.perm_insertionSort diagLe l₁).mem_iff).mp ha
    have hb' : b ∈ l₁ := ((List.perm_insertionSort diagLe l₁).mem_iff).mp hb
    rcases hab with h₁ | ⟨e₁, h₁⟩
    · rcases hba with h₂ | ⟨e₂, h₂⟩
      · omega
      · omega
    · rcases hba with h₂ | ⟨e₂, h₂⟩
      · omega
      · rcases h₁ with h₁ | ⟨f₁, h₁⟩
        · rcases h₂ with h₂ | ⟨f₂, h₂⟩
          · omega
          · omega
        · rcases h₂ with h₂ | ⟨f₂, h₂⟩
          · omega
          · exact hinj a ha' b hb' e₁ f₁ (strLe_antisymm h₁ h₂)
  have hout : sortDiagnosticsAndMatchBaselineCore tiers prev l₁ =
      sortDiagnosticsAndMatchBaselineCore tiers prev l₂ := by
    rw [sortDiagnosticsAndMatchBaselineCore, sortDiagnosticsAndMatchBaselineCore,
      hsort]
  exact ⟨hout, by rw [hout]⟩

/-- Witness for C8: two diagnostics on different lines reconcile to the
same output in either input order. -/
theorem C8_order_insensitive_witness :
    sortDiagnosticsAndMatchBaselineCore [] []
        [⟨.error, ⟨⟨1, 0⟩, ⟨1, 1⟩⟩, "b", none, none⟩,
         ⟨.error, ⟨⟨0, 0⟩, ⟨0, 1⟩⟩, "a", none, none⟩] =
      sortDiagnosticsAndMatchBaselineCore [] []
        [⟨.error, ⟨⟨0, 0⟩, ⟨0, 1⟩⟩, "a", none, none⟩,
         ⟨.error, ⟨⟨1, 0⟩, ⟨1, 1⟩⟩, "b", none, none⟩] :=
  (C8_order_insensitive [] []
    [⟨.error, ⟨⟨1, 0⟩, ⟨1, 1⟩⟩, "b", none, none⟩,
     ⟨.error, ⟨⟨0, 0⟩, ⟨0, 1⟩⟩, "a", none, none⟩]
    [⟨.error, ⟨⟨0, 0⟩, ⟨0, 1⟩⟩, "a", none, none⟩,
     ⟨.error, ⟨⟨1, 0⟩, ⟨1, 1⟩⟩, "b", none, none⟩]
    (List.Perm.swap _ _ _) (by decide)).1

/-- **C8 counterexample**: two distinct diagnostics with the same start
position and rule but different messages; swapping them in the input swaps
them in the output, so the visible sequence depends on the input order. -/
theorem C8_counterexample :
    ([⟨.error, ⟨⟨0, 0⟩, ⟨0, 1⟩⟩, "first", none, none⟩,
      ⟨.error, ⟨⟨0, 0⟩, ⟨0, 1⟩⟩, "second", none, none⟩] : List Diagnostic).Perm
      [⟨.error, ⟨⟨0, 0⟩, ⟨0, 1⟩⟩, "second", none, none⟩,
       ⟨.error, ⟨⟨0, 0⟩, ⟨0, 1⟩⟩, "first", none, none⟩] ∧
    sortDiagnosticsAndMatchBaselineCore [] []
        [⟨.error, ⟨⟨0, 0⟩, ⟨0, 1⟩⟩, "first", none, none⟩,
         ⟨.error, ⟨⟨0, 0⟩, ⟨0, 1⟩⟩, "second", none, none⟩] ≠
      sortDiagnosticsAndMatchBaselineCore [] []
        [⟨.error, ⟨⟨0, 0⟩, ⟨0, 1⟩⟩, "second", none, none⟩,
         ⟨.error, ⟨⟨0, 0⟩, ⟨0, 1⟩⟩, "first", none, none⟩] :=
  ⟨List.Perm.swap _ _ _, by decide⟩

/-- Witness for C9: the single produced baseline entry is the fingerprint
of the error diagnostic that passed the filter. -/
theorem C9_baseline_only_non_hint_witness :
    ("a.py", [toBaselined ⟨.error, ⟨⟨0, 4⟩, ⟨0, 10⟩⟩, "m", some "reportX", none⟩]) ∈
      (diagnosticsToBaseline (fun u => some u)
        [⟨"a.py", [⟨.error, ⟨⟨0, 4⟩, ⟨0, 10⟩⟩, "m", some "reportX", none⟩]⟩]).files ∧
    (∃ f ∈ ([⟨"a.py", [⟨.error, ⟨⟨0, 4⟩, ⟨0, 10⟩⟩, "m", some "reportX", none⟩]⟩] :
        List FileDiagnostics),
      ∃ d ∈ f.diagnostics, baselineFilter d = true ∧
        toBaselined ⟨.error, ⟨⟨0, 4⟩, ⟨0, 10⟩⟩, "m", some "reportX", none⟩ =
          toBaselined d) :=
  ⟨by decide,
   (C9_baseline_only_non_hint (fun u => some u)
      [⟨"a.py", [⟨.error, ⟨⟨0, 4⟩, ⟨0, 10⟩⟩, "m", some "reportX", none⟩]⟩]).1
    ("a.py", [toBaselined ⟨.error, ⟨⟨0, 4⟩, ⟨0, 10⟩⟩, "m", some "reportX", none⟩])
    (by decide)
    (toBaselined ⟨.error, ⟨⟨0, 4⟩, ⟨0, 10⟩⟩, "m", some "reportX", none⟩)
    (by decide)⟩

/-- With unique keys, membership is lookup. -/
theorem mem_iff_lookupVal {m : List (String × α)} {x : String × α}
    (hnd : (keysOf m).Nodup) :
    x ∈ m ↔ lookupVal m x.1 = some x.2 := by
  constructor
  · intro h
    exact lookupVal_eq_some_of_mem hnd (by simpa using h)
  · intro h
    have := mem_of_lookupVal_eq_some h
    simpa using this

/-- **C3** (confirmed).  When rebuilding the baseline, a previously
baselined file that is absent from the new analysis results keeps its
entries exactly when `openFilesOnly` is set (existence check skipped) or
the file still exists on disk; with an exhaustive scan
(`openFilesOnly = false`) and the file gone from disk
(`fexists` false), its entries are omitted from the rebuilt baseline
entirely. -/
theorem C3_deleted_file_entries_dropped (readFile : String → Option String)
    (parse : String → Option BaselineFile) (rel : String → Option String)
    (fexists : String → Bool) (rootDir : String) (fwd : List FileDiagnostics)
    (flag : Bool) (prev : BaselineFile)
    (hload : getBaselinedErrors readFile parse rootDir = .ok prev)
    (hnd : (keysOf prev.files).Nodup)
    (p : String) (es : List BaselinedDiagnostic)
    (hmem : (p, es) ∈ prev.files)
    (hnotnew : p ∉ keysOf (diagnosticsToBaseline rel fwd).files)
    (hne : es ≠ []) :
    (writeDiagnosticsToBaselineFile readFile parse rel fexists rootDir fwd
        flag).map (fun r => lookupVal r.2.files p) =
      .ok (if flag || fexists p then some es else none) := by
  rw [write_eq hload hnd]
  simp only [Except.map]
  congr 1
  by_cases hcond : (flag || fexists p) = true
  · rw [if_pos hcond]
    apply lookupVal_eq_some_of_mem (writeResult_keys_nodup hnd)
    rw [mem_writeResult_iff]
    exact ⟨Or.inr ⟨hmem, hasKey_eq_false_iff.mpr hnotnew, hcond⟩, hne⟩
  · rw [if_neg hcond]
    rw [lookupVal_eq_none_iff]
    intro hk
    simp only [keysOf, List.mem_map] at hk
    obtain ⟨q, hq, hq1⟩ := hk
    rw [mem_writeResult_iff] at hq
    rcases hq.1 with hnb | ⟨hprev, _, hcondq⟩
    · exact hnotnew (hq1 ▸ List.mem_map_of_mem (·.1) hnb)
    · have hqp : q = (p, es) :=
        eq_of_mem_of_keys_nodup hnd hprev hmem (by simpa using hq1)
      rw [hqp] at hcondq
      exact hcond hcondq

/-- Witness for C3: previous baseline has `a.py` and `b.py`, the new run
reports only `a.py`; with the existence check on and `b.py` gone from
disk, `b.py` is dropped; with `openFilesOnly` set, it is retained. -/
theorem C3_deleted_file_entries_dropped_witness :
    (writeDiagnosticsToBaselineFile (fun _ => some "prev")
        (fun _ => some ⟨[("a.py", [⟨some "reportX", ⟨4, 10, some 1⟩⟩]),
          ("b.py", [⟨some "reportX", ⟨4, 10, some 1⟩⟩])]⟩)
        (fun u => some u) (fun _ => false) "/r"
        [⟨"a.py", [⟨.error, ⟨⟨0, 4⟩, ⟨0, 10⟩⟩, "m", some "reportX", none⟩]⟩]
        false).map (fun r => lookupVal r.2.files "b.py") = .ok none ∧
    (writeDiagnosticsToBaselineFile (fun _ => some "prev")
        (fun _ => some ⟨[("a.py", [⟨some "reportX", ⟨4, 10, some 1⟩⟩]),
          ("b.py", [⟨some "reportX", ⟨4, 10, some 1⟩⟩])]⟩)
        (fun u => some u) (fun _ => false) "/r"
        [⟨"a.py", [⟨.error, ⟨⟨0, 4⟩, ⟨0, 10⟩⟩, "m", some "reportX", none⟩]⟩]
        true).map (fun r => lookupVal r.2.files "b.py") =
      .ok (some [⟨some "reportX", ⟨4, 10, some 1⟩⟩]) ∧
    (writeDiagnosticsToBaselineFile (fun _ => some "prev")
        (fun _ => some ⟨[("a.py", [⟨some "reportX", ⟨4, 10, some 1⟩⟩]),
          ("b.py", [⟨some "reportX", ⟨4, 10, some 1⟩⟩])]⟩)
        (fun u => some u) (fun _ => false) "/r"
        [⟨"a.py", [⟨.error, ⟨⟨0, 4⟩, ⟨0, 10⟩⟩, "m", some "reportX", none⟩]⟩]
        false).map (fun r => r.2.files) =
      .ok [("a.py", [toBaselined ⟨.error, ⟨⟨0, 4⟩, ⟨0, 10⟩⟩, "m",
        some "reportX", none⟩])] :=
  ⟨C3_deleted_file_entries_dropped (fun _ => some "prev")
      (fun _ => some ⟨[("a.py", [⟨some "reportX", ⟨4, 10, some 1⟩⟩]),
        ("b.py", [⟨some "reportX", ⟨4, 10, some 1⟩⟩])]⟩)
      (fun u => some u) (fun _ => false) "/r"
      [⟨"a.py", [⟨.error, ⟨⟨0, 4⟩, ⟨0, 10⟩⟩, "m", some "reportX", none⟩]⟩]
      false _ rfl (by decide) "b.py" [⟨some "reportX", ⟨4, 10, some 1⟩⟩]
      (by decide) (by decide) (by decide),
   C3_deleted_file_entries_dropped (fun _ => some "prev")
      (fun _ => some ⟨[("a.py", [⟨some "reportX", ⟨4, 10, some 1⟩⟩]),
        ("b.py", [⟨some "reportX", ⟨4, 10, some 1⟩⟩])]⟩)
      (fun u => some u) (fun _ => false) "/r"
      [⟨"a.py", [⟨.error, ⟨⟨0, 4⟩, ⟨0, 10⟩⟩, "m", some "reportX", none⟩]⟩]
      true _ rfl (by decide) "b.py" [⟨some "reportX", ⟨4, 10, some 1⟩⟩]
      (by decide) (by decide) (by decide),
   rfl⟩

/-- **C7** (confirmed).  Every persisted baseline has strictly sorted
file-path keys and omits zero-diagnostic file entries entirely; two writes
whose results agree as finite maps (same lookup for every key) serialize
to byte-identical content. -/
theorem C7_sorted_and_canonical (readFile : String → Option String)
    (parse : String → Option BaselineFile) (rel : String → Option String)
    (fexists : String → Bool) (rootDir : String) (fwd : List FileDiagnostics)
    (flag : Bool) (prev : BaselineFile) (s : String) (result : BaselineFile)
    (hload : getBaselinedErrors readFile parse rootDir = .ok prev)
    (hnd : (keysOf prev.files).Nodup)
    (hw : writeDiagnosticsToBaselineFile readFile parse rel fexists rootDir
      fwd flag = .ok (s, result)) :
    List.Pairwise (fun p q => strLe p.1 q.1 = true ∧ p.1 ≠ q.1) result.files ∧
    (∀ q ∈ result.files, q.2 ≠ []) ∧
    s = serializeBaseline result ∧
    (∀ (readFile₂ : String → Option String)
        (parse₂ : String → Option BaselineFile) (rel₂ : String → Option String)
        (fexists₂ : String → Bool) (rootDir₂ : String)
        (fwd₂ : List FileDiagnostics) (flag₂ : Bool) (prev₂ : BaselineFile)
        (s₂ : String) (result₂ : BaselineFile),
      getBaselinedErrors readFile₂ parse₂ rootDir₂ = .ok prev₂ →
      (keysOf prev₂.files).Nodup →
      writeDiagnosticsToBaselineFile readFile₂ parse₂ rel₂ fexists₂ rootDir₂
        fwd₂ flag₂ = .ok (s₂, result₂) →
      (∀ k, lookupVal result.files k = lookupVal result₂.files k) →
      s = s₂) := by
  rw [write_eq hload hnd] at hw
  simp only [Except.ok.injEq, Prod.mk.injEq] at hw
  obtain ⟨hs, hR⟩ := hw
  subst hR
  subst hs
  have hsorted := @writeResult_sorted rel fexists flag fwd prev
  have hkeys := @writeResult_keys_nodup rel fexists flag fwd prev hnd
  have hne : List.Pairwise (fun p q : String × List BaselinedDiagnostic =>
      p.1 ≠ q.1) (writeResult rel fexists flag fwd prev).files := by
    have hk' : List.Pairwise (fun a b : String => a ≠ b)
        ((writeResult rel fexists flag fwd prev).files.map (·.1)) := by
      simpa [keysOf, List.Nodup] using hkeys
    exact List.pairwise_map.mp hk'
  refine ⟨hsorted.and hne, ?_, rfl, ?_⟩
  · intro q hq
    exact @writeResult_no_empty rel fexists flag fwd prev q hq
  · intro rf₂ pa₂ rel₂ fx₂ rd₂ fwd₂ fl₂ prev₂ s₂ result₂ hload₂ hnd₂ hw₂ hlook
    rw [write_eq hload₂ hnd₂] at hw₂
    simp only [Except.ok.injEq, Prod.mk.injEq] at hw₂
    obtain ⟨hs₂, hR₂⟩ := hw₂
    subst hR₂
    subst hs₂
    have hkeys₂ := @writeResult_keys_nodup rel₂ fx₂ fl₂ fwd₂ prev₂ hnd₂
    have hmemeq : ∀ x, x ∈ (writeResult rel fexists flag fwd prev).files ↔
        x ∈ (writeResult rel₂ fx₂ fl₂ fwd₂ prev₂).files := by
      intro x
      rw [mem_iff_lookupVal hkeys, mem_iff_lookupVal hkeys₂, hlook x.1]
    have hfiles := sorted_files_ext hsorted
      (@writeResult_sorted rel₂ fx₂ fl₂ fwd₂ prev₂) hkeys hkeys₂ hmemeq
    unfold serializeBaseline
    rw [hfiles]

/-- Witness for C7: a concrete write has sorted keys, a nonempty retained
entry, the serialized bytes, and byte-identical output against an
identical second write. -/
theorem C7_sorted_and_canonical_witness :
    List.Pairwise (fun p q => strLe p.1 q.1 = true ∧ p.1 ≠ q.1)
      [("a.py", [toBaselined ⟨.error, ⟨⟨0, 4⟩, ⟨0, 10⟩⟩, "m", some "reportX",
          none⟩]),
       ("b.py", [toBaselined ⟨.error, ⟨⟨1, 2⟩, ⟨1, 3⟩⟩, "n", some "reportY",
          none⟩])] ∧
    ([toBaselined ⟨.error, ⟨⟨0, 4⟩, ⟨0, 10⟩⟩, "m", some "reportX", none⟩] ≠
      ([] : List BaselinedDiagnostic)) ∧
    serializeBaseline ⟨[("a.py", [toBaselined ⟨.error, ⟨⟨0, 4⟩, ⟨0, 10⟩⟩, "m",
        some "reportX", none⟩]),
      ("b.py", [toBaselined ⟨.error, ⟨⟨1, 2⟩, ⟨1, 3⟩⟩, "n", some "reportY",
        none⟩])]⟩ =
      serializeBaseline ⟨[("a.py", [toBaselined ⟨.error, ⟨⟨0, 4⟩, ⟨0, 10⟩⟩,
        "m", some "reportX", none⟩]),
      ("b.py", [toBaselined ⟨.error, ⟨⟨1, 2⟩, ⟨1, 3⟩⟩, "n", some "reportY",
        none⟩])]⟩ := by
  have h := C7_sorted_and_canonical (fun _ => none) (fun _ => none)
    (fun u => some u) (fun _ => false) "/r"
    [⟨"b.py", [⟨.error, ⟨⟨1, 2⟩, ⟨1, 3⟩⟩, "n", some "reportY", none⟩]⟩,
     ⟨"a.py", [⟨.error, ⟨⟨0, 4⟩, ⟨0, 10⟩⟩, "m", some "reportX", none⟩]⟩]
    false ⟨[]⟩
    (serializeBaseline ⟨[("a.py", [toBaselined ⟨.error, ⟨⟨0, 4⟩, ⟨0, 10⟩⟩,
        "m", some "reportX", none⟩]),
      ("b.py", [toBaselined ⟨.error, ⟨⟨1, 2⟩, ⟨1, 3⟩⟩, "n", some "reportY",
        none⟩])]⟩)
    ⟨[("a.py", [toBaselined ⟨.error, ⟨⟨0, 4⟩, ⟨0, 10⟩⟩, "m", some "reportX",
        none⟩]),
      ("b.py", [toBaselined ⟨.error, ⟨⟨1, 2⟩, ⟨1, 3⟩⟩, "n", some "reportY",
        none⟩])]⟩
    rfl (by decide) rfl
  refine ⟨h.1, ?_, ?_⟩
  · exact h.2.1 ("a.py", [toBaselined ⟨.error, ⟨⟨0, 4⟩, ⟨0, 10⟩⟩, "m",
      some "reportX", none⟩]) (by decide)
  · exact h.2.2.2 (fun _ => none) (fun _ => none) (fun u => some u)
      (fun _ => false) "/r"
      [⟨"b.py", [⟨.error, ⟨⟨1, 2⟩, ⟨1, 3⟩⟩, "n", some "reportY", none⟩]⟩,
       ⟨"a.py", [⟨.error, ⟨⟨0, 4⟩, ⟨0, 10⟩⟩, "m", some "reportX", none⟩]⟩]
      false ⟨[]⟩ _ _ rfl (by decide) rfl (fun _ => rfl)

/-- **C6** (confirmed).  Rebuilding the baseline a second time with the
same diagnostics, the same filesystem state, and the previous baseline now
being the first run's output (the second run reads back the file the first
run wrote) produces the same `BaselineFile` and byte-identical serialized
content. -/
theorem C6_round_trip_idempotent (readFile : String → Option String)
    (parse : String → Option BaselineFile) (rel : String → Option String)
    (fexists : String → Bool) (rootDir : String) (fwd : List FileDiagnostics)
    (flag : Bool) (prev : BaselineFile) (s₁ : String) (R₁ : BaselineFile)
    (readFile₂ : String → Option String) (parse₂ : String → Option BaselineFile)
    (hload : getBaselinedErrors readFile parse rootDir = .ok prev)
    (hnd : (keysOf prev.files).Nodup)
    (hw₁ : writeDiagnosticsToBaselineFile readFile parse rel fexists rootDir
      fwd flag = .ok (s₁, R₁))
    (hload₂ : getBaselinedErrors readFile₂ parse₂ rootDir = .ok R₁) :
    writeDiagnosticsToBaselineFile readFile₂ parse₂ rel fexists rootDir fwd
      flag = .ok (s₁, R₁) := by
  rw [write_eq hload hnd] at hw₁
  simp only [Except.ok.injEq, Prod.mk.injEq] at hw₁
  obtain ⟨hs₁, hR₁⟩ := hw₁
  have hnd₁ : (keysOf R₁.files).Nodup := by
    rw [← hR₁]
    exact @writeResult_keys_nodup rel fexists flag fwd prev hnd
  rw [write_eq hload₂ hnd₁]
  have hfiles : (writeResult rel fexists flag fwd R₁).files = R₁.files := by
    apply sorted_files_ext (@writeResult_sorted rel fexists flag fwd R₁)
      ?_ (@writeResult_keys_nodup rel fexists flag fwd R₁ hnd₁) hnd₁ ?_
    · rw [← hR₁]
      exact @writeResult_sorted rel fexists flag fwd prev
    · intro x
      rw [mem_writeResult_iff]
      constructor
      · rintro ⟨h | ⟨hR, _, _⟩, hne⟩
        · rw [← hR₁, mem_writeResult_iff]
          exact ⟨Or.inl h, hne⟩
        · exact hR
      · intro hx
        have hx' := hx
        rw [← hR₁, mem_writeResult_iff] at hx'
        obtain ⟨hd, hne⟩ := hx'
        refine ⟨?_, hne⟩
        rcases hd with hnb | ⟨_, hk, hc⟩
        · exact Or.inl hnb
        · exact Or.inr ⟨hx, hk, hc⟩
  have hW : writeResult rel fexists flag fwd R₁ = R₁ :=
    calc writeResult rel fexists flag fwd R₁ =
        ⟨(writeResult rel fexists flag fwd R₁).files⟩ := rfl
      _ = ⟨R₁.files⟩ := by rw [hfiles]
      _ = R₁ := rfl
  rw [hW, ← hR₁, hs₁]

/-- Witness for C6: a concrete first write, whose output is read back as
the previous baseline of a second identical run, which writes the same
bytes and the same baseline again. -/
theorem C6_round_trip_idempotent_witness :
    writeDiagnosticsToBaselineFile
      (fun _ => some (serializeBaseline ⟨[("a.py",
        [toBaselined ⟨.error, ⟨⟨0, 4⟩, ⟨0, 10⟩⟩, "m", some "reportX", none⟩])]⟩))
      (fun _ => some ⟨[("a.py",
        [toBaselined ⟨.error, ⟨⟨0, 4⟩, ⟨0, 10⟩⟩, "m", some "reportX", none⟩])]⟩)
      (fun u => some u) (fun _ => false) "/r"
      [⟨"a.py", [⟨.error, ⟨⟨0, 4⟩, ⟨0, 10⟩⟩, "m", some "reportX", none⟩]⟩]
      false =
    .ok (serializeBaseline ⟨[("a.py",
        [toBaselined ⟨.error, ⟨⟨0, 4⟩, ⟨0, 10⟩⟩, "m", some "reportX", none⟩])]⟩,
      ⟨[("a.py",
        [toBaselined ⟨.error, ⟨⟨0, 4⟩, ⟨0, 10⟩⟩, "m", some "reportX", none⟩])]⟩) :=
  C6_round_trip_idempotent (fun _ => none) (fun _ => none) (fun u => some u)
    (fun _ => false) "/r"
    [⟨"a.py", [⟨.error, ⟨⟨0, 4⟩, ⟨0, 10⟩⟩, "m", some "reportX", none⟩]⟩]
    false ⟨[]⟩
    (serializeBaseline ⟨[("a.py",
      [toBaselined ⟨.error, ⟨⟨0, 4⟩, ⟨0, 10⟩⟩, "m", some "reportX", none⟩])]⟩)
    ⟨[("a.py", [toBaselined ⟨.error, ⟨⟨0, 4⟩, ⟨0, 10⟩⟩, "m", some "reportX",
      none⟩])]⟩
    (fun _ => some (serializeBaseline ⟨[("a.py",
      [toBaselined ⟨.error, ⟨⟨0, 4⟩, ⟨0, 10⟩⟩, "m", some "reportX", none⟩])]⟩))
    (fun _ => some ⟨[("a.py",
      [toBaselined ⟨.error, ⟨⟨0, 4⟩, ⟨0, 10⟩⟩, "m", some "reportX", none⟩])]⟩)
    rfl (by decide) rfl rfl
